import Mathlib

/-!
Shallow embedding of the CHIP-8 emulator core (`src/chip8_engine/src/lib.rs`)
and of the boundary `load_rom` operation.

Machine integers are modelled as `Nat` with explicit reduction (`% 256` for
`u8`, `% 65536` for `u16`) at the points where the Rust code wraps.  A Rust
operation that aborts the process (an out-of-bounds array index, which panics
in both build profiles, or a checked-arithmetic underflow/overflow, which
panics in the debug profile and in release turns into an out-of-bounds index
on the very next line) is modelled as `none` at the instruction level.
Fixed-size arrays are modelled as total functions from indices; the in-range
indices are the ones the source can address.
-/

namespace Chip8Spec

def SCREEN_WIDTH : Nat := 64
def SCREEN_HEIGHT : Nat := 32
def RAM_SIZE : Nat := 4096
def V_REG_SIZE : Nat := 16
def STACK_REG_SIZE : Nat := 16
def KEYPAD_SIZE : Nat := 16
def START_ADDRESS : Nat := 0x200
def FONTSET_SIZE : Nat := 80

def FONTSET : List Nat :=
  [0xF0, 0x90, 0x90, 0x90, 0xF0,
   0x20, 0x60, 0x20, 0x20, 0x70,
   0xF0, 0x10, 0xF0, 0x80, 0xF0,
   0xF0, 0x10, 0xF0, 0x10, 0xF0,
   0x90, 0x90, 0xF0, 0x10, 0x10,
   0xF0, 0x80, 0xF0, 0x10, 0xF0,
   0xF0, 0x80, 0xF0, 0x90, 0xF0,
   0xF0, 0x10, 0x20, 0x40, 0x40,
   0xF0, 0x90, 0xF0, 0x90, 0xF0,
   0xF0, 0x90, 0xF0, 0x10, 0xF0,
   0xF0, 0x90, 0xF0, 0x90, 0x90,
   0xE0, 0x90, 0xE0, 0x90, 0xE0,
   0xF0, 0x80, 0x80, 0x80, 0xF0,
   0xE0, 0x90, 0x90, 0x90, 0xE0,
   0xF0, 0x80, 0xF0, 0x80, 0xF0,
   0xF0, 0x80, 0xF0, 0x80, 0x80]

/-- The machine state (`struct Chip8`).  Arrays become total functions on
`Nat`; the meaningful indices are `< 4096` for `memory`, `< 16` for `v_reg`,
`stack` and `keypad`, `< 64*32` for `screen`. -/
structure Chip8 where
  pc : Nat
  memory : Nat → Nat
  v_reg : Nat → Nat
  index_reg : Nat
  stack : Nat → Nat
  stack_pointer : Nat
  sound_timer : Nat
  delay_timer : Nat
  screen : Nat → Nat
  keypad : Nat → Bool

/-- Pointwise update of a function-modelled array (`arr[i] = v`). -/
def updF (f : Nat → Nat) (i v : Nat) : Nat → Nat :=
  fun j => if j = i then v else f j

/-- `Chip8::new`: font copied to the low 80 bytes of an otherwise zero RAM,
`pc = 0x200`, everything else zeroed. -/
def newChip8 : Chip8 where
  pc := START_ADDRESS
  memory := fun i => FONTSET.getD i 0
  v_reg := fun _ => 0
  index_reg := 0
  stack := fun _ => 0
  stack_pointer := 0
  sound_timer := 0
  delay_timer := 0
  screen := fun _ => 0
  keypad := fun _ => false

/-- `Chip8::push`: `stack[sp] = val; sp += 1`.  The write indexes the
16-element stack array without a guard, so at `sp ≥ 16` the source panics:
modelled as `none`. -/
def push (val : Nat) (s : Chip8) : Option Chip8 :=
  if s.stack_pointer < STACK_REG_SIZE then
    some {s with stack := updF s.stack s.stack_pointer val,
                 stack_pointer := s.stack_pointer + 1}
  else
    none

/-- `Chip8::pop`: `sp -= 1; stack[sp]`.  At `sp = 0` the `u16` subtraction
aborts (debug: arithmetic panic; release: wraps to 65535 and the index
panics); at `sp > 16` the index panics.  Both abort paths are `none`. -/
def pop (s : Chip8) : Option (Nat × Chip8) :=
  if s.stack_pointer = 0 then
    none
  else
    let sp := s.stack_pointer - 1
    if sp < STACK_REG_SIZE then
      some (s.stack sp, {s with stack_pointer := sp})
    else
      none

/-- `Chip8::fetch`: big-endian combine of `memory[pc]` and `memory[pc+1]`,
then `pc += 2`.  A read past the end of RAM panics in the source: `none`. -/
def fetch (s : Chip8) : Option (Nat × Chip8) :=
  if s.pc + 1 < RAM_SIZE then
    some (s.memory s.pc * 256 + s.memory (s.pc + 1), {s with pc := s.pc + 2})
  else
    none

/-- `Chip8::timers`: each timer decrements iff it is positive. -/
def timers (s : Chip8) : Chip8 :=
  let s1 := if s.delay_timer > 0 then {s with delay_timer := s.delay_timer - 1} else s
  if s1.sound_timer > 0 then {s1 with sound_timer := s1.sound_timer - 1} else s1

/-! ### Instruction handlers, one per `match` arm of `Chip8::execute` -/

/-- Arm `(0,0,0xE,0)` CLS: clear the screen. -/
def op_00E0 (s : Chip8) : Chip8 :=
  {s with screen := fun _ => 0}

/-- Arm `(0,0,0xE,0xE)` RET: pop the return address into `pc`. -/
def op_00EE (s : Chip8) : Option Chip8 :=
  (pop s).map fun p => {p.2 with pc := p.1}

/-- Arm `(0,_,_,_)` (commented `JMP NNN (1nnn)` in the source, but the
pattern actually matches a leading nibble of 0): `pc := nnn`. -/
def op_0NNN (nnn : Nat) (s : Chip8) : Chip8 :=
  {s with pc := nnn}

/-- Arm `(2,_,_,_)` CALL: push `pc`, then `pc := nnn`. -/
def op_2NNN (nnn : Nat) (s : Chip8) : Option Chip8 :=
  (push s.pc s).map fun s1 => {s1 with pc := nnn}

/-- Arm `(3,_,_,_)` SE Vx, byte: skip if `Vx == nn`. -/
def op_3XNN (x nn : Nat) (s : Chip8) : Chip8 :=
  if s.v_reg x = nn then {s with pc := (s.pc + 2) % 65536} else s

/-- Arm `(4,_,_,_)` SNE Vx, byte: skip if `Vx != nn`. -/
def op_4XNN (x nn : Nat) (s : Chip8) : Chip8 :=
  if s.v_reg x ≠ nn then {s with pc := (s.pc + 2) % 65536} else s

/-- Arm `(5,_,_,0)` SE Vx, Vy: skip if `Vx == Vy`. -/
def op_5XY0 (x y : Nat) (s : Chip8) : Chip8 :=
  if s.v_reg x = s.v_reg y then {s with pc := (s.pc + 2) % 65536} else s

/-- Arm `(6,_,_,_)` LD Vx, byte. -/
def op_6XNN (x nn : Nat) (s : Chip8) : Chip8 :=
  {s with v_reg := updF s.v_reg x nn}

/-- Arm `(7,_,_,_)` ADD Vx, byte: `overflowing_add`, the flag only feeds a
diagnostic print, `Vx` gets the wrapped sum. -/
def op_7XNN (x nn : Nat) (s : Chip8) : Chip8 :=
  {s with v_reg := updF s.v_reg x ((s.v_reg x + nn) % 256)}

/-- Arm `(8,_,_,0)` LD Vx, Vy. -/
def op_8XY0 (x y : Nat) (s : Chip8) : Chip8 :=
  {s with v_reg := updF s.v_reg x (s.v_reg y)}

/-- Arm `(8,_,_,1)` OR. -/
def op_8XY1 (x y : Nat) (s : Chip8) : Chip8 :=
  {s with v_reg := updF s.v_reg x (s.v_reg x ||| s.v_reg y)}

/-- Arm `(8,_,_,2)` AND. -/
def op_8XY2 (x y : Nat) (s : Chip8) : Chip8 :=
  {s with v_reg := updF s.v_reg x (s.v_reg x &&& s.v_reg y)}

/-- Arm `(8,_,_,3)` XOR. -/
def op_8XY3 (x y : Nat) (s : Chip8) : Chip8 :=
  {s with v_reg := updF s.v_reg x (s.v_reg x ^^^ s.v_reg y)}

/-- Arm `(8,_,_,4)` ADD with carry: sum and carry are computed from the
original registers, then `VF := carry`, then `Vx := sum` (in that order, so
for `x = 0xF` the sum overwrites the carry flag). -/
def op_8XY4 (x y : Nat) (s : Chip8) : Chip8 :=
  let sum := (s.v_reg x + s.v_reg y) % 256
  let carry := 256 ≤ s.v_reg x + s.v_reg y
  let s1 := {s with v_reg := updF s.v_reg 15 (if carry then 1 else 0)}
  {s1 with v_reg := updF s1.v_reg x sum}

/-- Arm `(8,_,_,5)` SUB with NOT-borrow flag, same write order as `8xy4`. -/
def op_8XY5 (x y : Nat) (s : Chip8) : Chip8 :=
  let diff := (s.v_reg x + 256 - s.v_reg y) % 256
  let borrow := s.v_reg x < s.v_reg y
  let s1 := {s with v_reg := updF s.v_reg 15 (if borrow then 0 else 1)}
  {s1 with v_reg := updF s1.v_reg x diff}

/-- Arm `(8,_,_,6)` SHR: `VF := Vx & 1`, then `Vx` is re-read and shifted
(so for `x = 0xF` the shift acts on the just-written flag). -/
def op_8XY6 (x : Nat) (s : Chip8) : Chip8 :=
  let s1 := {s with v_reg := updF s.v_reg 15 (s.v_reg x &&& 1)}
  {s1 with v_reg := updF s1.v_reg x (s1.v_reg x >>> 1)}

/-- Arm `(8,_,_,7)` SUBN: `Vx := Vy - Vx`, NOT-borrow flag. -/
def op_8XY7 (x y : Nat) (s : Chip8) : Chip8 :=
  let diff := (s.v_reg y + 256 - s.v_reg x) % 256
  let borrow := s.v_reg y < s.v_reg x
  let s1 := {s with v_reg := updF s.v_reg 15 (if borrow then 0 else 1)}
  {s1 with v_reg := updF s1.v_reg x diff}

/-- Arm `(8,_,_,0xE)` SHL: `VF := (Vx & 0x80) >> 7`, then `Vx` re-read and
shifted left with the top bit dropped (`u8` shift). -/
def op_8XYE (x : Nat) (s : Chip8) : Chip8 :=
  let s1 := {s with v_reg := updF s.v_reg 15 ((s.v_reg x &&& 0x80) >>> 7)}
  {s1 with v_reg := updF s1.v_reg x ((s1.v_reg x <<< 1) % 256)}

/-- Arm `(9,_,_,0)` SNE Vx, Vy. -/
def op_9XY0 (x y : Nat) (s : Chip8) : Chip8 :=
  if s.v_reg x ≠ s.v_reg y then {s with pc := (s.pc + 2) % 65536} else s

/-- Arm `(0xA,_,_,_)` LD I, addr. -/
def op_ANNN (nnn : Nat) (s : Chip8) : Chip8 :=
  {s with index_reg := nnn}

/-- Arm `(0xB,_,_,_)` JP V0, addr. -/
def op_BNNN (nnn : Nat) (s : Chip8) : Chip8 :=
  {s with pc := (s.v_reg 0 + nnn) % 65536}

/-- Arm `(0xC,_,_,_)` RND: `Vx := random_byte & nn`; the byte the thread
RNG produced is passed in as the `rnd` oracle. -/
def op_CXNN (x nn rnd : Nat) (s : Chip8) : Chip8 :=
  {s with v_reg := updF s.v_reg x ((rnd % 256) &&& nn)}

/-- One inner iteration of the `Dxyn` column loop: `x` re-read from the
register file each time, collision OR-ed into `VF`, pixel XOR-ed. -/
def drawCol (x pixel_data yy col : Nat) (s : Chip8) : Chip8 :=
  let xx := (s.v_reg x + col) % SCREEN_WIDTH
  let sprite_pixel := (pixel_data >>> (7 - col)) &&& 1
  let screen_idx := xx + SCREEN_WIDTH * yy
  let s1 := {s with
    v_reg := updF s.v_reg 15 (s.v_reg 15 ||| (sprite_pixel &&& s.screen screen_idx))}
  {s1 with screen := updF s1.screen screen_idx (s1.screen screen_idx ^^^ sprite_pixel)}

/-- One iteration of the `Dxyn` row loop: sprite byte read from
`memory[index_reg + row]` (a panic past the end of RAM: `none`), row
coordinate re-read from `Vy`, then the 8 columns. -/
def drawRow (x y row : Nat) (s : Chip8) : Option Chip8 :=
  let addr := s.index_reg + row
  if addr < RAM_SIZE then
    let pixel_data := s.memory addr
    let yy := (s.v_reg y + row) % SCREEN_HEIGHT
    some ((List.range 8).foldl (fun t col => drawCol x pixel_data yy col t) s)
  else
    none

/-- Arm `(0xD,_,_,_)` DRW: `VF := 0`, then the row loop. -/
def op_DXYN (x y n : Nat) (s : Chip8) : Option Chip8 :=
  let s0 := {s with v_reg := updF s.v_reg 15 0}
  (List.range n).foldlM (fun t row => drawRow x y row t) s0

/-- Arm `(0xE,_,9,0xE)` SKP: `keypad[Vx]` indexed with the full byte, a
panic for `Vx ≥ 16`. -/
def op_EX9E (x : Nat) (s : Chip8) : Option Chip8 :=
  let key := s.v_reg x
  if key < KEYPAD_SIZE then
    some (if s.keypad key then {s with pc := (s.pc + 2) % 65536} else s)
  else
    none

/-- Arm `(0xE,_,0xA,1)` SKNP. -/
def op_EXA1 (x : Nat) (s : Chip8) : Option Chip8 :=
  let key := s.v_reg x
  if key < KEYPAD_SIZE then
    some (if ¬ s.keypad key then {s with pc := (s.pc + 2) % 65536} else s)
  else
    none

/-- Arm `(0xF,_,0,7)` LD Vx, DT. -/
def op_FX07 (x : Nat) (s : Chip8) : Chip8 :=
  {s with v_reg := updF s.v_reg x s.delay_timer}

/-- Arm `(0xF,_,0,8)` (commented `LD Vx, K (Fx08)` in the source): first
pressed key into `Vx`, otherwise `pc -= 2` (a `u16` underflow aborts in the
debug profile: `none` for `pc < 2`). -/
def op_FX08 (x : Nat) (s : Chip8) : Option Chip8 :=
  match (List.range KEYPAD_SIZE).find? (fun k => s.keypad k) with
  | some k => some {s with v_reg := updF s.v_reg x k}
  | none => if 2 ≤ s.pc then some {s with pc := s.pc - 2} else none

/-- Arm `(0xF,_,1,5)` LD DT, Vx. -/
def op_FX15 (x : Nat) (s : Chip8) : Chip8 :=
  {s with delay_timer := s.v_reg x}

/-- Arm `(0xF,_,1,8)` LD ST, Vx. -/
def op_FX18 (x : Nat) (s : Chip8) : Chip8 :=
  {s with sound_timer := s.v_reg x}

/-- Arm `(0xF,_,1,0xE)` ADD I, Vx: `overflowing_add`, wrapped. -/
def op_FX1E (x : Nat) (s : Chip8) : Chip8 :=
  {s with index_reg := (s.index_reg + s.v_reg x) % 65536}

/-- Arm `(0xF,_,2,9)` LD F, Vx: `I := Vx * 5`. -/
def op_FX29 (x : Nat) (s : Chip8) : Chip8 :=
  {s with index_reg := s.v_reg x * 5}

/-- Arm `(0xF,_,3,3)` BCD.  The source computes the digits through `f32`
division/floor, which agrees with integer division for every `u8` input;
writes past the end of RAM panic: `none`. -/
def op_FX33 (x : Nat) (s : Chip8) : Option Chip8 :=
  if s.index_reg + 2 < RAM_SIZE then
    some {s with
      memory := updF (updF (updF s.memory s.index_reg (s.v_reg x / 100))
        (s.index_reg + 1) (s.v_reg x / 10 % 10))
        (s.index_reg + 2) (s.v_reg x % 10)}
  else
    none

/-- Arm `(0xF,_,5,5)` store `V0..Vx` at `I`; an out-of-range write panics. -/
def op_FX55 (x : Nat) (s : Chip8) : Option Chip8 :=
  let start_idx := s.index_reg
  if start_idx + x < RAM_SIZE then
    some {s with
      memory := (List.range (x + 1)).foldl
        (fun m index => updF m (index + start_idx) (s.v_reg index)) s.memory}
  else
    none

/-- Arm `(0xF,_,6,6)` (commented `LD Vx, [I] (Fx65)` in the source, but the
pattern is `6,6` and the base address is `v_reg[0]`, not the index
register): load `V0..Vx` from `memory[V0 ..]`. -/
def op_FX66 (x : Nat) (s : Chip8) : Option Chip8 :=
  let start_idx := s.v_reg 0
  if start_idx + x < RAM_SIZE then
    some {s with
      v_reg := (List.range (x + 1)).foldl
        (fun v index => updF v index (s.memory (index + start_idx))) s.v_reg}
  else
    none

/-- `Chip8::execute`: decode the four nibbles plus the derived `nn`/`nnn`
views and dispatch in the source's arm order (an `if` chain is the ordered
first-match semantics of the Rust `match`).  The final catch-all logs an
unknown opcode and leaves the state unchanged. -/
def execute (op rnd : Nat) (s : Chip8) : Option Chip8 :=
  let n0 := op / 4096 % 16
  let n1 := op / 256 % 16
  let n2 := op / 16 % 16
  let n3 := op % 16
  let x := n1
  let y := n2
  let n := n3
  let nn := op % 256
  let nnn := op % 4096
  if n0 = 0 ∧ n1 = 0 ∧ n2 = 0 ∧ n3 = 0 then some s
  else if n0 = 0 ∧ n1 = 0 ∧ n2 = 0xE ∧ n3 = 0 then some (op_00E0 s)
  else if n0 = 0 ∧ n1 = 0 ∧ n2 = 0xE ∧ n3 = 0xE then op_00EE s
  else if n0 = 0 then some (op_0NNN nnn s)
  else if n0 = 2 then op_2NNN nnn s
  else if n0 = 3 then some (op_3XNN x nn s)
  else if n0 = 4 then some (op_4XNN x nn s)
  else if n0 = 5 ∧ n3 = 0 then some (op_5XY0 x y s)
  else if n0 = 6 then some (op_6XNN x nn s)
  else if n0 = 7 then some (op_7XNN x nn s)
  else if n0 = 8 ∧ n3 = 0 then some (op_8XY0 x y s)
  else if n0 = 8 ∧ n3 = 1 then some (op_8XY1 x y s)
  else if n0 = 8 ∧ n3 = 2 then some (op_8XY2 x y s)
  else if n0 = 8 ∧ n3 = 3 then some (op_8XY3 x y s)
  else if n0 = 8 ∧ n3 = 4 then some (op_8XY4 x y s)
  else if n0 = 8 ∧ n3 = 5 then some (op_8XY5 x y s)
  else if n0 = 8 ∧ n3 = 6 then some (op_8XY6 x s)
  else if n0 = 8 ∧ n3 = 7 then some (op_8XY7 x y s)
  else if n0 = 8 ∧ n3 = 0xE then some (op_8XYE x s)
  else if n0 = 9 ∧ n3 = 0 then some (op_9XY0 x y s)
  else if n0 = 0xA then some (op_ANNN nnn s)
  else if n0 = 0xB then some (op_BNNN nnn s)
  else if n0 = 0xC then some (op_CXNN x nn rnd s)
  else if n0 = 0xD then op_DXYN x y n s
  else if n0 = 0xE ∧ n2 = 9 ∧ n3 = 0xE then op_EX9E x s
  else if n0 = 0xE ∧ n2 = 0xA ∧ n3 = 1 then op_EXA1 x s
  else if n0 = 0xF ∧ n2 = 0 ∧ n3 = 7 then some (op_FX07 x s)
  else if n0 = 0xF ∧ n2 = 0 ∧ n3 = 8 then op_FX08 x s
  else if n0 = 0xF ∧ n2 = 1 ∧ n3 = 5 then some (op_FX15 x s)
  else if n0 = 0xF ∧ n2 = 1 ∧ n3 = 8 then some (op_FX18 x s)
  else if n0 = 0xF ∧ n2 = 1 ∧ n3 = 0xE then some (op_FX1E x s)
  else if n0 = 0xF ∧ n2 = 2 ∧ n3 = 9 then some (op_FX29 x s)
  else if n0 = 0xF ∧ n2 = 3 ∧ n3 = 3 then op_FX33 x s
  else if n0 = 0xF ∧ n2 = 5 ∧ n3 = 5 then op_FX55 x s
  else if n0 = 0xF ∧ n2 = 6 ∧ n3 = 6 then op_FX66 x s
  else some s

/-- `Chip8::tick`: fetch, then decode/execute. -/
def tick (rnd : Nat) (s : Chip8) : Option Chip8 :=
  (fetch s).bind fun p => execute p.1 rnd p.2

/-- Load-time failure taxonomy of §7 of the spec. -/
inductive RomError where
  | RomTooLarge
deriving DecidableEq

/-- Modelled from the spec: `load_rom` is part of the engine crate but its
definition is not under `src/` (only its callers in the desktop and wasm
front-ends are).  Per §4.1/§6: copy the byte sequence into memory starting
at offset 512, rejecting with `RomTooLarge` any image longer than
`memory size - 512`, in which case the prior state is untouched. -/
def load_rom (data : List Nat) (s : Chip8) : Except RomError Chip8 :=
  if data.length > RAM_SIZE - START_ADDRESS then
    .error .RomTooLarge
  else
    .ok {s with
      memory := fun i =>
      if START_ADDRESS ≤ i ∧ i < START_ADDRESS + data.length then
        data.getD (i - START_ADDRESS) 0
      else
        s.memory i}

/-- The framebuffer invariant: every cell is a single bit. -/
def screenBits (s : Chip8) : Prop :=
  ∀ i, s.screen i ≤ 1


lemma timers_delay (s : Chip8) : (timers s).delay_timer = s.delay_timer - 1 := by
  by_cases h1 : s.delay_timer > 0 <;> by_cases h2 : s.sound_timer > 0 <;>
    simp [timers, h1, h2] <;> omega

lemma timers_sound (s : Chip8) : (timers s).sound_timer = s.sound_timer - 1 := by
  by_cases h1 : s.delay_timer > 0 <;> by_cases h2 : s.sound_timer > 0 <;>
    simp [timers, h1, h2] <;> omega

lemma timers_iterate (s : Chip8) (k : Nat) :
    ((timers^[k]) s).delay_timer = s.delay_timer - k ∧
    ((timers^[k]) s).sound_timer = s.sound_timer - k := by
  induction k generalizing s with
  | zero => simp
  | succ k ih =>
    rw [Function.iterate_succ_apply]
    have h := ih (timers s)
    rw [timers_delay, timers_sound] at h
    omega

/-- C8: after `k` timer ticks from initial value `t`, each timer reads
`max (t - k) 0`; in particular it never goes below zero and decrements by
exactly one per invocation while positive. -/
theorem timers_advance_max (s : Chip8) (k : Nat) :
    ((((timers^[k]) s).delay_timer : Int) = max ((s.delay_timer : Int) - k) 0) ∧
    ((((timers^[k]) s).sound_timer : Int) = max ((s.sound_timer : Int) - k) 0) := by
  have h := timers_iterate s k
  omega



/-- C1: for every 12-bit `nnn`, the opcode `1nnn` reaches the catch-all
(unknown-opcode) arm and the state is returned unchanged — the source's jump
arm matches a leading nibble of 0, not 1, contradicting its own
`JMP NNN (1nnn)` comment, so `pc` is never set to `nnn`. -/
theorem opcode_1NNN_hits_unknown_arm (nnn rnd : Nat) (s : Chip8) (h : nnn < 4096) :
    execute (0x1000 + nnn) rnd s = some s := by
  have h0 : (0x1000 + nnn) / 4096 % 16 = 1 := by omega
  simp only [execute, h0]
  norm_num

theorem opcode_1NNN_hits_unknown_arm_witness :
    0x234 < 4096 ∧ execute (0x1000 + 0x234) 0 newChip8 = some newChip8 :=
  ⟨by decide, opcode_1NNN_hits_unknown_arm 0x234 0 newChip8 (by decide)⟩

/-- C2: for every `x`, the opcode `Fx0A` reaches the catch-all
(unknown-opcode) arm: the state is returned unchanged, so neither the
`pc -= 2` busy-wait rewind nor any `Vx` write happens.  The wait-for-key
behavior in the source sits under the pattern `(0xF,_,0,8)`, i.e. `Fx08`. -/
theorem opcode_FX0A_hits_unknown_arm (x rnd : Nat) (s : Chip8) (h : x < 16) :
    execute (0xF00A + 256 * x) rnd s = some s := by
  have h0 : (0xF00A + 256 * x) / 4096 % 16 = 15 := by omega
  have h2 : (0xF00A + 256 * x) / 16 % 16 = 0 := by omega
  have h3 : (0xF00A + 256 * x) % 16 = 10 := by omega
  simp only [execute, h0, h2, h3]
  norm_num

theorem opcode_FX0A_hits_unknown_arm_witness :
    (0 : Nat) < 16 ∧ execute (0xF00A + 256 * 0) 0 newChip8 = some newChip8 :=
  ⟨by decide, opcode_FX0A_hits_unknown_arm 0 0 newChip8 (by decide)⟩

/-- C3: for every `x`, the opcode `Fx65` reaches the catch-all
(unknown-opcode) arm and the state is returned unchanged: the register-load
arm's pattern is `(0xF,_,6,6)` (`Fx66`), and even that arm reads from base
address `v_reg[0]`, not the index register, contradicting its own
`LD Vx, [I] (Fx65)` comment. -/
theorem opcode_FX65_hits_unknown_arm (x rnd : Nat) (s : Chip8) (h : x < 16) :
    execute (0xF065 + 256 * x) rnd s = some s := by
  have h0 : (0xF065 + 256 * x) / 4096 % 16 = 15 := by omega
  have h2 : (0xF065 + 256 * x) / 16 % 16 = 6 := by omega
  have h3 : (0xF065 + 256 * x) % 16 = 5 := by omega
  simp only [execute, h0, h2, h3]
  norm_num

theorem opcode_FX65_hits_unknown_arm_witness :
    (1 : Nat) < 16 ∧ execute (0xF065 + 256 * 1) 0 newChip8 = some newChip8 :=
  ⟨by decide, opcode_FX65_hits_unknown_arm 1 0 newChip8 (by decide)⟩

/-- C5: executing `00EE` with an empty stack aborts (the `u16` stack-pointer
decrement underflows / the stack index goes out of range — a panic, modelled
`none`), and executing `2nnn` with 16 stacked entries aborts (the push
indexes `stack[16]`).  Neither fault is returned to the caller as a result;
the process crashes instead. -/
theorem ret_underflow_and_call_overflow_abort (rnd : Nat) (s : Chip8) :
    execute 0x00EE rnd {s with stack_pointer := 0} = none ∧
    execute 0x2345 rnd {s with stack_pointer := 16} = none :=
  ⟨rfl, rfl⟩



/-- C4 (`load_rom` modelled from the spec, §4.1/§6): a byte sequence of
length at most `4096 - 512 = 3584` is copied into memory starting at offset
512 with all other state intact, and any longer sequence is rejected with
`RomTooLarge`, leaving the prior state intact (no new state is produced). -/
theorem load_rom_copies_or_rejects (data : List Nat) (s : Chip8) :
    (data.length ≤ RAM_SIZE - START_ADDRESS →
      ∃ s', load_rom data s = .ok s' ∧
        (∀ i, i < data.length → s'.memory (START_ADDRESS + i) = data.getD i 0) ∧
        (∀ i, i < START_ADDRESS ∨ START_ADDRESS + data.length ≤ i →
          s'.memory i = s.memory i) ∧
        s'.pc = s.pc ∧ s'.v_reg = s.v_reg ∧ s'.index_reg = s.index_reg ∧
        s'.stack = s.stack ∧ s'.stack_pointer = s.stack_pointer ∧
        s'.sound_timer = s.sound_timer ∧ s'.delay_timer = s.delay_timer ∧
        s'.screen = s.screen ∧ s'.keypad = s.keypad) ∧
    (RAM_SIZE - START_ADDRESS < data.length →
      load_rom data s = .error .RomTooLarge) := by
  constructor
  · intro hle
    unfold load_rom
    rw [if_neg (by omega)]
    refine ⟨_, rfl, ?_, ?_, rfl, rfl, rfl, rfl, rfl, rfl, rfl, rfl, rfl⟩
    · intro i hi
      dsimp only
      rw [if_pos ⟨by omega, by omega⟩]
      have he : START_ADDRESS + i - START_ADDRESS = i := by omega
      rw [he]
    · intro i hi
      dsimp only
      rw [if_neg (by omega)]
  · intro hgt
    unfold load_rom
    rw [if_pos (by omega)]

theorem load_rom_copies_or_rejects_witness :
    ([7, 8].length ≤ RAM_SIZE - START_ADDRESS ∧
      (∃ s', load_rom [7, 8] newChip8 = .ok s' ∧
        (∀ i, i < [7, 8].length → s'.memory (START_ADDRESS + i) = [7, 8].getD i 0) ∧
        (∀ i, i < START_ADDRESS ∨ START_ADDRESS + [7, 8].length ≤ i →
          s'.memory i = newChip8.memory i) ∧
        s'.pc = newChip8.pc ∧ s'.v_reg = newChip8.v_reg ∧
        s'.index_reg = newChip8.index_reg ∧ s'.stack = newChip8.stack ∧
        s'.stack_pointer = newChip8.stack_pointer ∧
        s'.sound_timer = newChip8.sound_timer ∧
        s'.delay_timer = newChip8.delay_timer ∧
        s'.screen = newChip8.screen ∧ s'.keypad = newChip8.keypad)) ∧
    load_rom (List.replicate 3585 0) newChip8 = .error .RomTooLarge := by
  refine ⟨⟨by decide, (load_rom_copies_or_rejects [7, 8] newChip8).1 (by decide)⟩, ?_⟩
  exact (load_rom_copies_or_rejects (List.replicate 3585 0) newChip8).2
    (by simp only [List.length_replicate, RAM_SIZE, START_ADDRESS]; omega)



lemma execute_7XNN (x nn rnd : Nat) (s : Chip8) (hx : x < 16) (hnn : nn < 256) :
    execute (0x7000 + 256 * x + nn) rnd s = some (op_7XNN x nn s) := by
  have h0 : (0x7000 + 256 * x + nn) / 4096 % 16 = 7 := by omega
  have h1 : (0x7000 + 256 * x + nn) / 256 % 16 = x := by omega
  have hnn2 : (0x7000 + 256 * x + nn) % 256 = nn := by omega
  simp only [execute, h0, h1, hnn2]
  norm_num

lemma execute_8XY4 (x y rnd : Nat) (s : Chip8) (hx : x < 16) (hy : y < 16) :
    execute (0x8004 + 256 * x + 16 * y) rnd s = some (op_8XY4 x y s) := by
  have h0 : (0x8004 + 256 * x + 16 * y) / 4096 % 16 = 8 := by omega
  have h1 : (0x8004 + 256 * x + 16 * y) / 256 % 16 = x := by omega
  have h2 : (0x8004 + 256 * x + 16 * y) / 16 % 16 = y := by omega
  have h3 : (0x8004 + 256 * x + 16 * y) % 16 = 4 := by omega
  simp only [execute, h0, h1, h2, h3]
  norm_num

/-- C6 counterexample: the claim "7xnn never writes VF" fails at `x = 0xF`:
from the power-on state (where `VF = 0`), executing `0x7F01` leaves
`VF = 1`, because `Vx` *is* `VF` there.  (`8xy4` likewise loses its carry
flag at `x = 0xF`: the wrapped sum overwrites it.) -/
theorem add_7FNN_writes_VF :
    newChip8.v_reg 15 = 0 ∧
    (execute 0x7F01 0 newChip8).map (fun t => t.v_reg 15) = some 1 :=
  ⟨rfl, rfl⟩

/-- C6 amended: for every destination register `x ≠ 0xF` (and any `y`,
`nn`): `7xnn` writes only `Vx := (Vx + nn) % 256` — in particular `VF` is
untouched even when the addition overflows — and `8xy4` writes
`Vx := (Vx + Vy) % 256` and `VF := 1` iff the true sum exceeds 255, else
`VF := 0`.  For `x = 0xF` both instructions' write to `Vx` lands on `VF`
itself (see the counterexample). -/
theorem add_without_and_with_carry (x y nn rnd : Nat) (s : Chip8)
    (hx : x < 15) (hy : y < 16) (hnn : nn < 256) :
    (execute (0x7000 + 256 * x + nn) rnd s =
      some {s with v_reg := updF s.v_reg x ((s.v_reg x + nn) % 256)} ∧
      updF s.v_reg x ((s.v_reg x + nn) % 256) 15 = s.v_reg 15) ∧
    (execute (0x8004 + 256 * x + 16 * y) rnd s =
      some {s with
        v_reg := updF (updF s.v_reg 15 (if 255 < s.v_reg x + s.v_reg y then 1 else 0)) x
          ((s.v_reg x + s.v_reg y) % 256)} ∧
      updF (updF s.v_reg 15 (if 255 < s.v_reg x + s.v_reg y then 1 else 0)) x
          ((s.v_reg x + s.v_reg y) % 256) 15 =
        (if 255 < s.v_reg x + s.v_reg y then 1 else 0) ∧
      updF (updF s.v_reg 15 (if 255 < s.v_reg x + s.v_reg y then 1 else 0)) x
          ((s.v_reg x + s.v_reg y) % 256) x = (s.v_reg x + s.v_reg y) % 256) := by
  have hx15 : x ≠ 15 := by omega
  refine ⟨⟨?_, ?_⟩, ?_, ?_, ?_⟩
  · rw [execute_7XNN x nn rnd s (by omega) hnn]
    rfl
  · simp [updF, Ne.symm hx15]
  · rw [execute_8XY4 x y rnd s (by omega) hy]
    rfl
  · simp [updF, Ne.symm hx15]
  · simp [updF]

theorem add_without_and_with_carry_witness :
    (execute (0x7000 + 256 * 1 + 7) 0 newChip8 =
      some {newChip8 with v_reg := updF newChip8.v_reg 1 ((newChip8.v_reg 1 + 7) % 256)} ∧
      updF newChip8.v_reg 1 ((newChip8.v_reg 1 + 7) % 256) 15 = newChip8.v_reg 15) ∧
    (execute (0x8004 + 256 * 1 + 16 * 2) 0 newChip8 =
      some {newChip8 with
        v_reg := updF (updF newChip8.v_reg 15
          (if 255 < newChip8.v_reg 1 + newChip8.v_reg 2 then 1 else 0)) 1
          ((newChip8.v_reg 1 + newChip8.v_reg 2) % 256)} ∧
      updF (updF newChip8.v_reg 15
          (if 255 < newChip8.v_reg 1 + newChip8.v_reg 2 then 1 else 0)) 1
          ((newChip8.v_reg 1 + newChip8.v_reg 2) % 256) 15 =
        (if 255 < newChip8.v_reg 1 + newChip8.v_reg 2 then 1 else 0) ∧
      updF (updF newChip8.v_reg 15
          (if 255 < newChip8.v_reg 1 + newChip8.v_reg 2 then 1 else 0)) 1
          ((newChip8.v_reg 1 + newChip8.v_reg 2) % 256) 1 =
        (newChip8.v_reg 1 + newChip8.v_reg 2) % 256) :=
  add_without_and_with_carry 1 2 7 0 newChip8 (by decide) (by decide) (by decide)



lemma execute_EX9E (x rnd : Nat) (s : Chip8) (hx : x < 16) :
    execute (0xE09E + 256 * x) rnd s = op_EX9E x s := by
  have h0 : (0xE09E + 256 * x) / 4096 % 16 = 14 := by omega
  have h1 : (0xE09E + 256 * x) / 256 % 16 = x := by omega
  have h2 : (0xE09E + 256 * x) / 16 % 16 = 9 := by omega
  have h3 : (0xE09E + 256 * x) % 16 = 14 := by omega
  simp only [execute, h0, h1, h2, h3]
  norm_num

lemma execute_EXA1 (x rnd : Nat) (s : Chip8) (hx : x < 16) :
    execute (0xE0A1 + 256 * x) rnd s = op_EXA1 x s := by
  have h0 : (0xE0A1 + 256 * x) / 4096 % 16 = 14 := by omega
  have h1 : (0xE0A1 + 256 * x) / 256 % 16 = x := by omega
  have h2 : (0xE0A1 + 256 * x) / 16 % 16 = 10 := by omega
  have h3 : (0xE0A1 + 256 * x) % 16 = 1 := by omega
  simp only [execute, h0, h1, h2, h3]
  norm_num

/-- C9: the key-skip opcodes index the 16-entry keypad with the full value
of `Vx`.  When `Vx ≤ 15` they have the defined skip behavior (advance `pc`
by 2 iff the key is / is not pressed); when `Vx > 15` the access is out of
range — the source panics, modelled `none` — instead of any skip. -/
theorem key_skip_in_bounds_iff (x rnd : Nat) (s : Chip8) (hx : x < 16) :
    (s.v_reg x ≤ 15 →
      execute (0xE09E + 256 * x) rnd s =
        some (if s.keypad (s.v_reg x) then {s with pc := (s.pc + 2) % 65536} else s) ∧
      execute (0xE0A1 + 256 * x) rnd s =
        some (if ¬ s.keypad (s.v_reg x) then {s with pc := (s.pc + 2) % 65536} else s)) ∧
    (15 < s.v_reg x →
      execute (0xE09E + 256 * x) rnd s = none ∧
      execute (0xE0A1 + 256 * x) rnd s = none) := by
  rw [execute_EX9E x rnd s hx, execute_EXA1 x rnd s hx]
  unfold op_EX9E op_EXA1
  have hks : (KEYPAD_SIZE : Nat) = 16 := rfl
  constructor
  · intro hle
    have hk : s.v_reg x < KEYPAD_SIZE := by omega
    dsimp only
    rw [if_pos hk, if_pos hk]
    exact ⟨rfl, rfl⟩
  · intro hgt
    have hk : ¬ s.v_reg x < KEYPAD_SIZE := by omega
    dsimp only
    rw [if_neg hk, if_neg hk]
    exact ⟨rfl, rfl⟩

theorem key_skip_in_bounds_iff_witness :
    (execute (0xE09E + 256 * 0) 0 newChip8 =
      some (if newChip8.keypad (newChip8.v_reg 0)
        then {newChip8 with pc := (newChip8.pc + 2) % 65536} else newChip8) ∧
     execute (0xE0A1 + 256 * 0) 0 newChip8 =
      some (if ¬ newChip8.keypad (newChip8.v_reg 0)
        then {newChip8 with pc := (newChip8.pc + 2) % 65536} else newChip8)) ∧
    (execute (0xE09E + 256 * 0) 0 {newChip8 with v_reg := updF newChip8.v_reg 0 99} = none ∧
     execute (0xE0A1 + 256 * 0) 0 {newChip8 with v_reg := updF newChip8.v_reg 0 99} = none) :=
  ⟨(key_skip_in_bounds_iff 0 0 newChip8 (by decide)).1 (by decide),
   (key_skip_in_bounds_iff 0 0 {newChip8 with v_reg := updF newChip8.v_reg 0 99}
      (by decide)).2 (by decide)⟩



lemma screenBits_of_eq {s t : Chip8} (h : t.screen = s.screen)
    (hs : screenBits s) : screenBits t := by
  intro i
  rw [h]
  exact hs i

lemma xor_bit_le_one {a b : Nat} (ha : a ≤ 1) (hb : b ≤ 1) : a ^^^ b ≤ 1 := by
  interval_cases a <;> interval_cases b <;> decide

lemma sprite_pixel_le_one (pd k : Nat) : (pd >>> k) &&& 1 ≤ 1 := by
  rw [Nat.and_one_is_mod]
  omega

lemma pop_screen {s : Chip8} {a : Nat × Chip8} (h : pop s = some a) :
    a.2.screen = s.screen := by
  unfold pop at h
  split at h
  · exact absurd h (by simp)
  · dsimp only at h
    split at h
    · cases h; rfl
    · exact absurd h (by simp)

lemma op_00EE_screen {s s' : Chip8} (h : op_00EE s = some s') :
    s'.screen = s.screen := by
  unfold op_00EE at h
  obtain ⟨a, ha, hb⟩ := Option.map_eq_some'.mp h
  subst hb
  show a.2.screen = s.screen
  exact pop_screen ha

lemma push_screen {v : Nat} {s s' : Chip8} (h : push v s = some s') :
    s'.screen = s.screen := by
  unfold push at h
  split at h
  · cases h; rfl
  · exact absurd h (by simp)

lemma op_2NNN_screen {nnn : Nat} {s s' : Chip8} (h : op_2NNN nnn s = some s') :
    s'.screen = s.screen := by
  unfold op_2NNN at h
  obtain ⟨a, ha, hb⟩ := Option.map_eq_some'.mp h
  subst hb
  show a.screen = s.screen
  exact push_screen ha

lemma op_EX9E_screen {x : Nat} {s s' : Chip8} (h : op_EX9E x s = some s') :
    s'.screen = s.screen := by
  unfold op_EX9E at h
  try dsimp only at h
  split at h
  · cases h
    split <;> rfl
  · exact absurd h (by simp)

lemma op_EXA1_screen {x : Nat} {s s' : Chip8} (h : op_EXA1 x s = some s') :
    s'.screen = s.screen := by
  unfold op_EXA1 at h
  try dsimp only at h
  split at h
  · cases h
    split <;> rfl
  · exact absurd h (by simp)

lemma op_FX08_screen {x : Nat} {s s' : Chip8} (h : op_FX08 x s = some s') :
    s'.screen = s.screen := by
  unfold op_FX08 at h
  split at h
  · cases h; rfl
  · split at h
    · cases h; rfl
    · exact absurd h (by simp)

lemma op_FX33_screen {x : Nat} {s s' : Chip8} (h : op_FX33 x s = some s') :
    s'.screen = s.screen := by
  unfold op_FX33 at h
  split at h
  · cases h; rfl
  · exact absurd h (by simp)

lemma op_FX55_screen {x : Nat} {s s' : Chip8} (h : op_FX55 x s = some s') :
    s'.screen = s.screen := by
  unfold op_FX55 at h
  try dsimp only at h
  split at h
  · cases h; rfl
  · exact absurd h (by simp)

lemma op_FX66_screen {x : Nat} {s s' : Chip8} (h : op_FX66 x s = some s') :
    s'.screen = s.screen := by
  unfold op_FX66 at h
  try dsimp only at h
  split at h
  · cases h; rfl
  · exact absurd h (by simp)

lemma drawCol_screenBits {x pd yy col : Nat} {s : Chip8} (hs : screenBits s) :
    screenBits (drawCol x pd yy col s) := by
  intro i
  unfold drawCol
  try dsimp only
  unfold updF
  try dsimp only
  split
  · exact xor_bit_le_one (hs _) (sprite_pixel_le_one pd _)
  · exact hs i

lemma foldl_drawCol_screenBits {x pd yy : Nat} :
    ∀ (cols : List Nat) (s : Chip8), screenBits s →
      screenBits (cols.foldl (fun t col => drawCol x pd yy col t) s) := by
  intro cols
  induction cols with
  | nil => intro s hs; exact hs
  | cons c cs ih =>
    intro s hs
    rw [List.foldl_cons]
    exact ih _ (drawCol_screenBits hs)

lemma drawRow_screenBits {x y row : Nat} {s t : Chip8}
    (h : drawRow x y row s = some t) (hs : screenBits s) : screenBits t := by
  unfold drawRow at h
  try dsimp only at h
  split at h
  · cases h
    exact foldl_drawCol_screenBits _ _ hs
  · exact absurd h (by simp)

lemma foldlM_drawRow_screenBits {x y : Nat} :
    ∀ (rows : List Nat) (s t : Chip8),
      rows.foldlM (fun u row => drawRow x y row u) s = some t →
      screenBits s → screenBits t := by
  intro rows
  induction rows with
  | nil =>
    intro s t h hs
    cases h
    exact hs
  | cons r rs ih =>
    intro s t h hs
    rw [List.foldlM_cons] at h
    cases hr : drawRow x y r s with
    | none => rw [hr] at h; exact absurd h (by simp)
    | some u =>
      rw [hr] at h
      exact ih u t h (drawRow_screenBits hr hs)

lemma op_DXYN_screenBits {x y n : Nat} {s s' : Chip8}
    (h : op_DXYN x y n s = some s') (hs : screenBits s) : screenBits s' := by
  unfold op_DXYN at h
  exact foldlM_drawRow_screenBits _ _ _ h (screenBits_of_eq rfl hs)

set_option maxHeartbeats 3200000 in
lemma execute_screenBits {op rnd : Nat} {s s' : Chip8}
    (h : execute op rnd s = some s') (hs : screenBits s) : screenBits s' := by
  unfold execute at h
  dsimp only at h
  by_cases c1 : op / 4096 % 16 = 0 ∧ op / 256 % 16 = 0 ∧ op / 16 % 16 = 0 ∧ op % 16 = 0
  case pos => rw [if_pos c1] at h; cases h; exact hs
  rw [if_neg c1] at h
  by_cases c2 : op / 4096 % 16 = 0 ∧ op / 256 % 16 = 0 ∧ op / 16 % 16 = 14 ∧ op % 16 = 0
  case pos => rw [if_pos c2] at h; cases h; intro i; exact Nat.zero_le 1
  rw [if_neg c2] at h
  by_cases c3 : op / 4096 % 16 = 0 ∧ op / 256 % 16 = 0 ∧ op / 16 % 16 = 14 ∧ op % 16 = 14
  case pos => rw [if_pos c3] at h; exact screenBits_of_eq (op_00EE_screen h) hs
  rw [if_neg c3] at h
  by_cases c4 : op / 4096 % 16 = 0
  case pos => rw [if_pos c4] at h; cases h; exact screenBits_of_eq rfl hs
  rw [if_neg c4] at h
  by_cases c5 : op / 4096 % 16 = 2
  case pos => rw [if_pos c5] at h; exact screenBits_of_eq (op_2NNN_screen h) hs
  rw [if_neg c5] at h
  by_cases c6 : op / 4096 % 16 = 3
  case pos => rw [if_pos c6] at h; cases h; exact screenBits_of_eq (by unfold op_3XNN; split <;> rfl) hs
  rw [if_neg c6] at h
  by_cases c7 : op / 4096 % 16 = 4
  case pos => rw [if_pos c7] at h; cases h; exact screenBits_of_eq (by unfold op_4XNN; split <;> rfl) hs
  rw [if_neg c7] at h
  by_cases c8 : op / 4096 % 16 = 5 ∧ op % 16 = 0
  case pos => rw [if_pos c8] at h; cases h; exact screenBits_of_eq (by unfold op_5XY0; split <;> rfl) hs
  rw [if_neg c8] at h
  by_cases c9 : op / 4096 % 16 = 6
  case pos => rw [if_pos c9] at h; cases h; exact screenBits_of_eq rfl hs
  rw [if_neg c9] at h
  by_cases c10 : op / 4096 % 16 = 7
  case pos => rw [if_pos c10] at h; cases h; exact screenBits_of_eq rfl hs
  rw [if_neg c10] at h
  by_cases c11 : op / 4096 % 16 = 8 ∧ op % 16 = 0
  case pos => rw [if_pos c11] at h; cases h; exact screenBits_of_eq rfl hs
  rw [if_neg c11] at h
  by_cases c12 : op / 4096 % 16 = 8 ∧ op % 16 = 1
  case pos => rw [if_pos c12] at h; cases h; exact screenBits_of_eq rfl hs
  rw [if_neg c12] at h
  by_cases c13 : op / 4096 % 16 = 8 ∧ op % 16 = 2
  case pos => rw [if_pos c13] at h; cases h; exact screenBits_of_eq rfl hs
  rw [if_neg c13] at h
  by_cases c14 : op / 4096 % 16 = 8 ∧ op % 16 = 3
  case pos => rw [if_pos c14] at h; cases h; exact screenBits_of_eq rfl hs
  rw [if_neg c14] at h
  by_cases c15 : op / 4096 % 16 = 8 ∧ op % 16 = 4
  case pos => rw [if_pos c15] at h; cases h; exact screenBits_of_eq rfl hs
  rw [if_neg c15] at h
  by_cases c16 : op / 4096 % 16 = 8 ∧ op % 16 = 5
  case pos => rw [if_pos c16] at h; cases h; exact screenBits_of_eq rfl hs
  rw [if_neg c16] at h
  by_cases c17 : op / 4096 % 16 = 8 ∧ op % 16 = 6
  case pos => rw [if_pos c17] at h; cases h; exact screenBits_of_eq rfl hs
  rw [if_neg c17] at h
  by_cases c18 : op / 4096 % 16 = 8 ∧ op % 16 = 7
  case pos => rw [if_pos c18] at h; cases h; exact screenBits_of_eq rfl hs
  rw [if_neg c18] at h
  by_cases c19 : op / 4096 % 16 = 8 ∧ op % 16 = 14
  case pos => rw [if_pos c19] at h; cases h; exact screenBits_of_eq rfl hs
  rw [if_neg c19] at h
  by_cases c20 : op / 4096 % 16 = 9 ∧ op % 16 = 0
  case pos => rw [if_pos c20] at h; cases h; exact screenBits_of_eq (by unfold op_9XY0; split <;> rfl) hs
  rw [if_neg c20] at h
  by_cases c21 : op / 4096 % 16 = 10
  case pos => rw [if_pos c21] at h; cases h; exact screenBits_of_eq rfl hs
  rw [if_neg c21] at h
  by_cases c22 : op / 4096 % 16 = 11
  case pos => rw [if_pos c22] at h; cases h; exact screenBits_of_eq rfl hs
  rw [if_neg c22] at h
  by_cases c23 : op / 4096 % 16 = 12
  case pos => rw [if_pos c23] at h; cases h; exact screenBits_of_eq rfl hs
  rw [if_neg c23] at h
  by_cases c24 : op / 4096 % 16 = 13
  case pos => rw [if_pos c24] at h; exact op_DXYN_screenBits h hs
  rw [if_neg c24] at h
  by_cases c25 : op / 4096 % 16 = 14 ∧ op / 16 % 16 = 9 ∧ op % 16 = 14
  case pos => rw [if_pos c25] at h; exact screenBits_of_eq (op_EX9E_screen h) hs
  rw [if_neg c25] at h
  by_cases c26 : op / 4096 % 16 = 14 ∧ op / 16 % 16 = 10 ∧ op % 16 = 1
  case pos => rw [if_pos c26] at h; exact screenBits_of_eq (op_EXA1_screen h) hs
  rw [if_neg c26] at h
  by_cases c27 : op / 4096 % 16 = 15 ∧ op / 16 % 16 = 0 ∧ op % 16 = 7
  case pos => rw [if_pos c27] at h; cases h; exact screenBits_of_eq rfl hs
  rw [if_neg c27] at h
  by_cases c28 : op / 4096 % 16 = 15 ∧ op / 16 % 16 = 0 ∧ op % 16 = 8
  case pos => rw [if_pos c28] at h; exact screenBits_of_eq (op_FX08_screen h) hs
  rw [if_neg c28] at h
  by_cases c29 : op / 4096 % 16 = 15 ∧ op / 16 % 16 = 1 ∧ op % 16 = 5
  case pos => rw [if_pos c29] at h; cases h; exact screenBits_of_eq rfl hs
  rw [if_neg c29] at h
  by_cases c30 : op / 4096 % 16 = 15 ∧ op / 16 % 16 = 1 ∧ op % 16 = 8
  case pos => rw [if_pos c30] at h; cases h; exact screenBits_of_eq rfl hs
  rw [if_neg c30] at h
  by_cases c31 : op / 4096 % 16 = 15 ∧ op / 16 % 16 = 1 ∧ op % 16 = 14
  case pos => rw [if_pos c31] at h; cases h; exact screenBits_of_eq rfl hs
  rw [if_neg c31] at h
  by_cases c32 : op / 4096 % 16 = 15 ∧ op / 16 % 16 = 2 ∧ op % 16 = 9
  case pos => rw [if_pos c32] at h; cases h; exact screenBits_of_eq rfl hs
  rw [if_neg c32] at h
  by_cases c33 : op / 4096 % 16 = 15 ∧ op / 16 % 16 = 3 ∧ op % 16 = 3
  case pos => rw [if_pos c33] at h; exact screenBits_of_eq (op_FX33_screen h) hs
  rw [if_neg c33] at h
  by_cases c34 : op / 4096 % 16 = 15 ∧ op / 16 % 16 = 5 ∧ op % 16 = 5
  case pos => rw [if_pos c34] at h; exact screenBits_of_eq (op_FX55_screen h) hs
  rw [if_neg c34] at h
  by_cases c35 : op / 4096 % 16 = 15 ∧ op / 16 % 16 = 6 ∧ op % 16 = 6
  case pos => rw [if_pos c35] at h; exact screenBits_of_eq (op_FX66_screen h) hs
  rw [if_neg c35] at h
  cases h; exact hs

lemma fetch_screen {s : Chip8} {p : Nat × Chip8} (h : fetch s = some p) :
    p.2.screen = s.screen := by
  unfold fetch at h
  split at h
  · cases h; rfl
  · exact absurd h (by simp)

lemma timers_screen (s : Chip8) : (timers s).screen = s.screen := by
  by_cases h1 : s.delay_timer > 0 <;> by_cases h2 : s.sound_timer > 0 <;>
    simp [timers, h1, h2]

/-- C10: framebuffer cells are single bits in every reachable state — the
power-on state is all-zero, `00E0` writes all zeros, and every `tick`
(`execute` included, where `Dxyn` XORs cells with extracted sprite bits)
and every timer tick preserves the 0/1 invariant; no other operation writes
the framebuffer. -/
theorem screen_cells_are_bits :
    (∀ i, newChip8.screen i = 0) ∧
    (∀ (s : Chip8) i, (op_00E0 s).screen i = 0) ∧
    (∀ op rnd (s s' : Chip8), execute op rnd s = some s' →
      screenBits s → screenBits s') ∧
    (∀ rnd (s s' : Chip8), tick rnd s = some s' → screenBits s → screenBits s') ∧
    (∀ s : Chip8, screenBits s → screenBits (timers s)) := by
  refine ⟨fun i => rfl, fun s i => rfl, fun op rnd s s' h hs => execute_screenBits h hs,
    ?_, fun s hs => screenBits_of_eq (timers_screen s) hs⟩
  intro rnd s s' h hs
  unfold tick at h
  cases hf : fetch s with
  | none => rw [hf] at h; exact absurd h (by simp)
  | some p =>
    rw [hf] at h
    exact execute_screenBits h (screenBits_of_eq (fetch_screen hf) hs)

theorem screen_cells_are_bits_witness :
    screenBits ((tick 0 newChip8).getD newChip8) ∧
    screenBits (timers newChip8) := by
  have hnew : screenBits newChip8 := fun i => Nat.zero_le 1
  constructor
  · exact screen_cells_are_bits.2.2.2.1 0 newChip8 _ rfl hnew
  · exact screen_cells_are_bits.2.2.2.2 newChip8 hnew



/-! ### Characterization of the `Dxyn` pixel loop

The inner loops of `op_DXYN` are re-expressed as a fold over the list of
(screen index, sprite bit) pairs the instruction touches; with `x, y ≠ 0xF`
the coordinate registers are stable across the loop, the pairs list is the
same on every run over an unchanged state, and its screen indices are
pairwise distinct, which yields the XOR round-trip and collision-flag
facts. -/

/-- One pixel blit at a precomputed (screen index, sprite bit) pair:
collision OR-ed into `VF`, then the pixel XOR-ed. -/
def blitStep (s : Chip8) (p : Nat × Nat) : Chip8 :=
  let s1 := {s with
    v_reg := updF s.v_reg 15 (s.v_reg 15 ||| (p.2 &&& s.screen p.1))}
  {s1 with screen := updF s1.screen p.1 (s1.screen p.1 ^^^ p.2)}

def applyPairs (L : List (Nat × Nat)) (s : Chip8) : Chip8 :=
  L.foldl blitStep s

/-- The pair touched by column `col` of a sprite row: screen index from the
wrapped coordinates, bit extracted MSB-first. -/
def colPair (vx yy pd col : Nat) : Nat × Nat :=
  ((vx + col) % 64 + 64 * yy, (pd >>> (7 - col)) &&& 1)

/-- The eight pairs of sprite row `row`. -/
def rowPairs (vx vy I : Nat) (M : Nat → Nat) (row : Nat) : List (Nat × Nat) :=
  (List.range 8).map (colPair vx ((vy + row) % 32) (M (I + row)))

/-- All pairs of an `n`-row draw. -/
def allPairs (vx vy I : Nat) (M : Nat → Nat) (n : Nat) : List (Nat × Nat) :=
  (List.range n).flatMap (rowPairs vx vy I M)

/-- Screen indices pairwise distinct. -/
def DistinctKeys (L : List (Nat × Nat)) : Prop :=
  L.Pairwise (fun p q => p.1 ≠ q.1)

def orList (l : List Nat) : Nat :=
  l.foldr (fun a b => a ||| b) 0

lemma blitStep_memory (s : Chip8) (p : Nat × Nat) :
    (blitStep s p).memory = s.memory := rfl

lemma blitStep_index_reg (s : Chip8) (p : Nat × Nat) :
    (blitStep s p).index_reg = s.index_reg := rfl

lemma blitStep_vreg_ne (s : Chip8) (p : Nat × Nat) {j : Nat} (hj : j ≠ 15) :
    (blitStep s p).v_reg j = s.v_reg j := by
  simp [blitStep, updF, hj]

lemma blitStep_vf (s : Chip8) (p : Nat × Nat) :
    (blitStep s p).v_reg 15 = s.v_reg 15 ||| (p.2 &&& s.screen p.1) := by
  simp [blitStep, updF]

lemma blitStep_screen_self (s : Chip8) (p : Nat × Nat) :
    (blitStep s p).screen p.1 = s.screen p.1 ^^^ p.2 := by
  simp [blitStep, updF]

lemma blitStep_screen_other (s : Chip8) (p : Nat × Nat) {k : Nat}
    (hk : k ≠ p.1) : (blitStep s p).screen k = s.screen k := by
  simp [blitStep, updF, hk]

lemma applyPairs_memory (L : List (Nat × Nat)) (s : Chip8) :
    (applyPairs L s).memory = s.memory := by
  induction L generalizing s with
  | nil => rfl
  | cons p L ih => rw [applyPairs, List.foldl_cons, ← applyPairs, ih]; rfl

lemma applyPairs_index_reg (L : List (Nat × Nat)) (s : Chip8) :
    (applyPairs L s).index_reg = s.index_reg := by
  induction L generalizing s with
  | nil => rfl
  | cons p L ih => rw [applyPairs, List.foldl_cons, ← applyPairs, ih]; rfl

lemma applyPairs_vreg_ne (L : List (Nat × Nat)) (s : Chip8) {j : Nat}
    (hj : j ≠ 15) : (applyPairs L s).v_reg j = s.v_reg j := by
  induction L generalizing s with
  | nil => rfl
  | cons p L ih =>
    rw [applyPairs, List.foldl_cons, ← applyPairs, ih, blitStep_vreg_ne s p hj]

lemma applyPairs_screen_untouched (L : List (Nat × Nat)) (s : Chip8) {k : Nat}
    (h : ∀ q ∈ L, q.1 ≠ k) : (applyPairs L s).screen k = s.screen k := by
  induction L generalizing s with
  | nil => rfl
  | cons p L ih =>
    rw [applyPairs, List.foldl_cons, ← applyPairs]
    rw [ih _ fun q hq => h q (List.mem_cons_of_mem p hq)]
    exact blitStep_screen_other s p fun hk =>
      h p (List.mem_cons_self p L) (hk ▸ rfl)

lemma applyPairs_screen_touched (L : List (Nat × Nat)) (s : Chip8)
    {k b : Nat} (hd : DistinctKeys L) (hm : (k, b) ∈ L) :
    (applyPairs L s).screen k = s.screen k ^^^ b := by
  induction L generalizing s with
  | nil => cases hm
  | cons p L ih =>
    rw [applyPairs, List.foldl_cons, ← applyPairs]
    rcases List.pairwise_cons.mp hd with ⟨hp, htl⟩
    rcases List.mem_cons.mp hm with heq | hmem
    · subst heq
      have huk : ∀ q ∈ L, q.1 ≠ k := by
        intro q hq hqk
        exact hp q hq hqk.symm
      rw [applyPairs_screen_untouched L (blitStep s (k, b)) huk]
      exact blitStep_screen_self s (k, b)
    · have hkp : k ≠ p.1 := by
        intro hkp
        exact hp (k, b) hmem hkp.symm
      rw [ih (blitStep s p) htl hmem, blitStep_screen_other s p hkp]

lemma applyPairs_vf (L : List (Nat × Nat)) (s : Chip8) (hd : DistinctKeys L) :
    (applyPairs L s).v_reg 15 =
      s.v_reg 15 ||| orList (L.map fun q => q.2 &&& s.screen q.1) := by
  induction L generalizing s with
  | nil => simp [applyPairs, orList]
  | cons p L ih =>
    rw [applyPairs, List.foldl_cons, ← applyPairs]
    rcases List.pairwise_cons.mp hd with ⟨hp, htl⟩
    rw [ih (blitStep s p) htl]
    have hmap : (L.map fun q => q.2 &&& (blitStep s p).screen q.1) =
        (L.map fun q => q.2 &&& s.screen q.1) := by
      refine List.map_congr_left fun q hq => ?_
      rw [blitStep_screen_other s p fun h => hp q hq h.symm]
    rw [hmap, blitStep_vf, List.map_cons]
    show _ = s.v_reg 15 ||| ((p.2 &&& s.screen p.1) ||| _)
    rw [Nat.or_assoc]
    rfl

lemma or_le_one {a b : Nat} (ha : a ≤ 1) (hb : b ≤ 1) : a ||| b ≤ 1 := by
  interval_cases a <;> interval_cases b <;> decide

lemma orList_le_one {l : List Nat} (h : ∀ v ∈ l, v ≤ 1) : orList l ≤ 1 := by
  induction l with
  | nil => decide
  | cons a l ih =>
    rw [orList, List.foldr_cons]
    exact or_le_one (h a (List.mem_cons_self a l))
      (ih fun v hv => h v (List.mem_cons_of_mem a hv))

lemma orList_eq_one_iff {l : List Nat} (h : ∀ v ∈ l, v ≤ 1) :
    orList l = 1 ↔ ∃ v ∈ l, v = 1 := by
  induction l with
  | nil => simp [orList]
  | cons a l ih =>
    rw [orList, List.foldr_cons]
    show a ||| orList l = 1 ↔ _
    have ha := h a (List.mem_cons_self a l)
    have hl : ∀ v ∈ l, v ≤ 1 := fun v hv => h v (List.mem_cons_of_mem a hv)
    have htl := ih hl
    have hol := orList_le_one hl
    simp only [List.mem_cons]
    interval_cases a <;> interval_cases horl : orList l <;> simp_all

lemma applyPairs_append (L1 L2 : List (Nat × Nat)) (s : Chip8) :
    applyPairs (L1 ++ L2) s = applyPairs L2 (applyPairs L1 s) := by
  rw [applyPairs, applyPairs, applyPairs, List.foldl_append]

lemma colPair_key (vx yy pd c : Nat) :
    (colPair vx yy pd c).1 = (vx + c) % 64 + 64 * yy := rfl

lemma drawCol_eq_blitStep (x pd yy col : Nat) (s : Chip8) :
    drawCol x pd yy col s = blitStep s (colPair (s.v_reg x) yy pd col) := rfl

lemma foldl_drawCol_eq_applyPairs (x pd yy : Nat) (hx : x ≠ 15) :
    ∀ (cols : List Nat) (s : Chip8),
      cols.foldl (fun t col => drawCol x pd yy col t) s =
      applyPairs (cols.map (colPair (s.v_reg x) yy pd)) s := by
  intro cols
  induction cols with
  | nil => intro s; rfl
  | cons c cs ih =>
    intro s
    rw [List.foldl_cons, List.map_cons, applyPairs, List.foldl_cons,
      ← applyPairs, ih, drawCol_eq_blitStep,
      blitStep_vreg_ne s (colPair (s.v_reg x) yy pd c) hx]

lemma drawRow_eq_applyPairs (x y row : Nat) (s : Chip8) (hx : x ≠ 15)
    (hb : s.index_reg + row < RAM_SIZE) :
    drawRow x y row s = some (applyPairs
      (rowPairs (s.v_reg x) (s.v_reg y) s.index_reg s.memory row) s) := by
  unfold drawRow
  rw [if_pos hb]
  dsimp only
  rw [foldl_drawCol_eq_applyPairs x _ _ hx (List.range 8) s]
  rfl

lemma foldlM_drawRow_eq_applyPairs (x y : Nat) (hx : x ≠ 15) (hy : y ≠ 15) :
    ∀ (rows : List Nat) (s : Chip8), (∀ r ∈ rows, s.index_reg + r < RAM_SIZE) →
      rows.foldlM (fun t row => drawRow x y row t) s =
      some (applyPairs
        (rows.flatMap (rowPairs (s.v_reg x) (s.v_reg y) s.index_reg s.memory)) s) := by
  intro rows
  induction rows with
  | nil => intro s _; rfl
  | cons r rs ih =>
    intro s hb
    rw [List.foldlM_cons,
      drawRow_eq_applyPairs x y r s hx (hb r (List.mem_cons_self r rs))]
    show rs.foldlM (fun t row => drawRow x y row t) _ = _
    set t1 := applyPairs (rowPairs (s.v_reg x) (s.v_reg y) s.index_reg s.memory r) s with ht1
    have hvx : t1.v_reg x = s.v_reg x := applyPairs_vreg_ne _ s hx
    have hvy : t1.v_reg y = s.v_reg y := applyPairs_vreg_ne _ s hy
    have hi : t1.index_reg = s.index_reg := applyPairs_index_reg _ s
    have hm : t1.memory = s.memory := applyPairs_memory _ s
    rw [ih t1 (fun q hq => by rw [hi]; exact hb q (List.mem_cons_of_mem r hq))]
    rw [hvx, hvy, hi, hm, List.flatMap_cons, applyPairs_append]

lemma op_DXYN_eq_applyPairs (x y n : Nat) (s : Chip8) (hx : x ≠ 15)
    (hy : y ≠ 15) (hb : s.index_reg + n ≤ RAM_SIZE) :
    op_DXYN x y n s = some (applyPairs
      (allPairs (s.v_reg x) (s.v_reg y) s.index_reg s.memory n)
      {s with v_reg := updF s.v_reg 15 0}) := by
  unfold op_DXYN
  set s0 := {s with v_reg := updF s.v_reg 15 0} with hs0
  have hvx : s0.v_reg x = s.v_reg x := by simp [hs0, updF, hx]
  have hvy : s0.v_reg y = s.v_reg y := by simp [hs0, updF, hy]
  rw [foldlM_drawRow_eq_applyPairs x y hx hy (List.range n) s0
    (fun r hr => by
      have := List.mem_range.mp hr
      show s.index_reg + r < RAM_SIZE
      unfold RAM_SIZE at hb ⊢
      omega)]
  rw [hvx, hvy]
  rfl

lemma mem_allPairs {q : Nat × Nat} {vx vy I n : Nat} {M : Nat → Nat} :
    q ∈ allPairs vx vy I M n ↔
      ∃ row, row < n ∧ ∃ col, col < 8 ∧
        q = colPair vx ((vy + row) % 32) (M (I + row)) col := by
  unfold allPairs rowPairs
  rw [List.mem_flatMap]
  constructor
  · rintro ⟨r, hr, hq⟩
    rcases List.mem_map.mp hq with ⟨c, hc, hcq⟩
    exact ⟨r, List.mem_range.mp hr, c, List.mem_range.mp hc, hcq.symm⟩
  · rintro ⟨r, hr, c, hc, hq⟩
    exact ⟨r, List.mem_range.mpr hr,
      List.mem_map.mpr ⟨c, List.mem_range.mpr hc, hq.symm⟩⟩

lemma allPairs_bits_le_one {q : Nat × Nat} {vx vy I n : Nat} {M : Nat → Nat}
    (hq : q ∈ allPairs vx vy I M n) : q.2 ≤ 1 := by
  rcases mem_allPairs.mp hq with ⟨r, _, c, _, hcq⟩
  rw [hcq]
  exact sprite_pixel_le_one _ _

lemma flatMap_rowPairs_distinct (vx vy I : Nat) (M : Nat → Nat) :
    ∀ (rows : List Nat), (∀ r ∈ rows, r < 32) →
      rows.Pairwise (fun a b => a ≠ b) →
      DistinctKeys (rows.flatMap (rowPairs vx vy I M)) := by
  intro rows
  induction rows with
  | nil => intro _ _; exact List.Pairwise.nil
  | cons r rs ih =>
    intro h32 hnd
    rcases List.pairwise_cons.mp hnd with ⟨hner, hndtl⟩
    rw [List.flatMap_cons, DistinctKeys, List.pairwise_append]
    refine ⟨?_, ih (fun q hq => h32 q (List.mem_cons_of_mem r hq)) hndtl, ?_⟩
    · rw [rowPairs, List.pairwise_map]
      refine (List.pairwise_lt_range 8).imp_of_mem ?_
      intro a b ha hb hab
      rw [colPair_key, colPair_key]
      have ha8 := List.mem_range.mp ha
      have hb8 := List.mem_range.mp hb
      omega
    · intro p hp q hq
      rcases List.mem_map.mp hp with ⟨c, hc, hcp⟩
      rcases List.mem_flatMap.mp hq with ⟨r2, hr2, hq2⟩
      rcases List.mem_map.mp hq2 with ⟨c2, hc2, hcq2⟩
      rw [← hcp, ← hcq2, colPair_key, colPair_key]
      have hc8 := List.mem_range.mp hc
      have hc28 := List.mem_range.mp hc2
      have hr32 : r < 32 := h32 r (List.mem_cons_self r rs)
      have hr232 : r2 < 32 := h32 r2 (List.mem_cons_of_mem r hr2)
      have hrne : r ≠ r2 := hner r2 hr2
      omega

lemma allPairs_distinct (vx vy I : Nat) (M : Nat → Nat) (n : Nat)
    (hn : n ≤ 32) : DistinctKeys (allPairs vx vy I M n) := by
  unfold allPairs
  refine flatMap_rowPairs_distinct vx vy I M (List.range n) ?_ ?_
  · intro r hr
    have := List.mem_range.mp hr
    omega
  · exact (List.pairwise_lt_range n).imp Nat.ne_of_lt

lemma bit_and_xor_eq_one {b z : Nat} (hb : b ≤ 1) (hz : z ≤ 1) :
    b &&& (z ^^^ b) = 1 ↔ b = 1 ∧ z = 0 := by
  interval_cases b <;> interval_cases z <;> decide

lemma execute_DXYN (x y n rnd : Nat) (s : Chip8) (hx : x < 16) (hy : y < 16)
    (hn : n < 16) :
    execute (0xD000 + 256 * x + 16 * y + n) rnd s = op_DXYN x y n s := by
  have h0 : (0xD000 + 256 * x + 16 * y + n) / 4096 % 16 = 13 := by omega
  have h1 : (0xD000 + 256 * x + 16 * y + n) / 256 % 16 = x := by omega
  have h2 : (0xD000 + 256 * x + 16 * y + n) / 16 % 16 = y := by omega
  have h3 : (0xD000 + 256 * x + 16 * y + n) % 16 = n := by omega
  simp only [execute, h0, h1, h2, h3]
  norm_num

/-- C7 amended (see the counterexample for why the unconditional "VF = 1 on
the second draw" fails): for `x, y ≠ 0xF` and sprite rows within RAM,
executing the same `Dxyn` twice in succession restores every framebuffer
cell to its value before the first draw, and the second draw leaves
`VF = 1` iff the first draw turned at least one pixel from 0 to 1 (i.e.
some sprite bit is 1 over a 0 pixel), else `VF = 0`. -/
theorem draw_twice_restores_and_flags (x y n rnd : Nat) (s : Chip8)
    (hx : x < 16) (hy : y < 16) (hx15 : x ≠ 15) (hy15 : y ≠ 15) (hn : n < 16)
    (hb : s.index_reg + n ≤ RAM_SIZE) (hs : screenBits s) :
    ∃ s2, (execute (0xD000 + 256 * x + 16 * y + n) rnd s).bind
        (execute (0xD000 + 256 * x + 16 * y + n) rnd) = some s2 ∧
      (∀ i, s2.screen i = s.screen i) ∧
      s2.v_reg 15 ≤ 1 ∧
      (s2.v_reg 15 = 1 ↔ ∃ row, row < n ∧ ∃ col, col < 8 ∧
        (s.memory (s.index_reg + row) >>> (7 - col)) &&& 1 = 1 ∧
        s.screen ((s.v_reg x + col) % 64 + 64 * ((s.v_reg y + row) % 32)) = 0) := by
  set L := allPairs (s.v_reg x) (s.v_reg y) s.index_reg s.memory n with hL
  have hdist : DistinctKeys L := allPairs_distinct _ _ _ _ n (by omega)
  have hbits : ∀ q ∈ L, q.2 ≤ 1 := fun q hq => allPairs_bits_le_one hq
  set s0 : Chip8 := {s with v_reg := updF s.v_reg 15 0} with hs0
  set s1 : Chip8 := applyPairs L s0 with hs1
  have h1x : s1.v_reg x = s.v_reg x := by
    rw [hs1, applyPairs_vreg_ne L s0 hx15, hs0]
    simp [updF, hx15]
  have h1y : s1.v_reg y = s.v_reg y := by
    rw [hs1, applyPairs_vreg_ne L s0 hy15, hs0]
    simp [updF, hy15]
  have h1i : s1.index_reg = s.index_reg := by
    rw [hs1, applyPairs_index_reg L s0]
  have h1m : s1.memory = s.memory := by
    rw [hs1, applyPairs_memory L s0]
  set s1' : Chip8 := {s1 with v_reg := updF s1.v_reg 15 0} with hs1'
  have hLs1 : allPairs (s1.v_reg x) (s1.v_reg y) s1.index_reg s1.memory n = L := by
    rw [h1x, h1y, h1i, h1m]
  have hcomp : (execute (0xD000 + 256 * x + 16 * y + n) rnd s).bind
      (execute (0xD000 + 256 * x + 16 * y + n) rnd) =
      some (applyPairs L s1') := by
    rw [execute_DXYN x y n rnd s hx hy hn,
      op_DXYN_eq_applyPairs x y n s hx15 hy15 hb, ← hs0, ← hs1,
      Option.some_bind, execute_DXYN x y n rnd s1 hx hy hn,
      op_DXYN_eq_applyPairs x y n s1 hx15 hy15 (by rw [h1i]; exact hb),
      hLs1, ← hs1']
  have hscr0 : ∀ i, s0.screen i = s.screen i := fun i => rfl
  have hscr1' : ∀ i, s1'.screen i = s1.screen i := fun i => rfl
  refine ⟨applyPairs L s1', hcomp, ?_, ?_, ?_⟩
  · intro i
    by_cases hex : ∃ b, (i, b) ∈ L
    · obtain ⟨b, hmem⟩ := hex
      rw [applyPairs_screen_touched L s1' hdist hmem, hscr1' i, hs1,
        applyPairs_screen_touched L s0 hdist hmem, hscr0 i,
        Nat.xor_cancel_right]
    · push_neg at hex
      have hnt : ∀ q ∈ L, q.1 ≠ i := by
        intro q hq hqi
        refine hex q.2 ?_
        rw [← hqi, Prod.mk.eta]
        exact hq
      rw [applyPairs_screen_untouched L s1' hnt, hscr1' i, hs1,
        applyPairs_screen_untouched L s0 hnt, hscr0 i]
  all_goals {
    have hvf2 : (applyPairs L s1').v_reg 15 =
        orList (L.map fun q => q.2 &&& (s.screen q.1 ^^^ q.2)) := by
      rw [applyPairs_vf L s1' hdist]
      have hz : s1'.v_reg 15 = 0 := by
        rw [hs1']
        simp [updF]
      rw [hz, Nat.zero_or]
      refine congrArg orList (List.map_congr_left fun q hq => ?_)
      rw [hscr1' q.1, hs1, applyPairs_screen_touched L s0 hdist ?_, hscr0 q.1]
      rw [Prod.mk.eta]
      exact hq
    have helem : ∀ v ∈ (L.map fun q => q.2 &&& (s.screen q.1 ^^^ q.2)), v ≤ 1 := by
      intro v hv
      rcases List.mem_map.mp hv with ⟨q, hq, hvq⟩
      rw [← hvq]
      exact le_trans Nat.and_le_left (hbits q hq)
    first
    | (rw [hvf2]
       exact orList_le_one helem)
    | (rw [hvf2, orList_eq_one_iff helem]
       constructor
       · rintro ⟨v, hv, hv1⟩
         rcases List.mem_map.mp hv with ⟨q, hq, hvq⟩
         rw [← hvq] at hv1
         rcases (bit_and_xor_eq_one (hbits q hq) (hs q.1)).mp hv1 with ⟨hq2, hq1⟩
         rcases mem_allPairs.mp hq with ⟨row, hrow, col, hcol, hqe⟩
         subst hqe
         exact ⟨row, hrow, col, hcol, hq2, hq1⟩
       · rintro ⟨row, hrow, col, hcol, hbit, hpix⟩
         refine ⟨(colPair (s.v_reg x) ((s.v_reg y + row) % 32)
             (s.memory (s.index_reg + row)) col).2 &&&
           (s.screen (colPair (s.v_reg x) ((s.v_reg y + row) % 32)
             (s.memory (s.index_reg + row)) col).1 ^^^
            (colPair (s.v_reg x) ((s.v_reg y + row) % 32)
             (s.memory (s.index_reg + row)) col).2), ?_, ?_⟩
         · exact List.mem_map.mpr ⟨_, mem_allPairs.mpr ⟨row, hrow, col, hcol, rfl⟩, rfl⟩
         · refine (bit_and_xor_eq_one ?_ (hs _)).mpr ⟨hbit, hpix⟩
           exact sprite_pixel_le_one _ _) }

/-- C7 counterexample: drawing the identical sprite twice does NOT always
set `VF = 1` on the second draw.  With `index_reg = 0x300` the sprite byte
is `memory[0x300] = 0` (all-zero sprite row): executing `D011` twice leaves
`VF = 0` — the first draw set no pixel, so the second has no collision.
The framebuffer-restoration half holds (trivially) at this input; the
`VF = 1` half of the claim is false. -/
theorem draw_twice_zero_sprite_vf_zero :
    ((execute 0xD011 0 {newChip8 with index_reg := 0x300}).bind
      (execute 0xD011 0)).map (fun t => t.v_reg 15) = some 0 := rfl

theorem draw_twice_restores_and_flags_witness :
    ∃ s2, (execute (0xD000 + 256 * 0 + 16 * 1 + 1) 0 newChip8).bind
        (execute (0xD000 + 256 * 0 + 16 * 1 + 1) 0) = some s2 ∧
      (∀ i, s2.screen i = newChip8.screen i) ∧
      s2.v_reg 15 ≤ 1 ∧
      (s2.v_reg 15 = 1 ↔ ∃ row, row < 1 ∧ ∃ col, col < 8 ∧
        (newChip8.memory (newChip8.index_reg + row) >>> (7 - col)) &&& 1 = 1 ∧
        newChip8.screen ((newChip8.v_reg 0 + col) % 64 +
          64 * ((newChip8.v_reg 1 + row) % 32)) = 0) :=
  draw_twice_restores_and_flags 0 1 1 0 newChip8 (by decide) (by decide)
    (by decide) (by decide) (by decide) (by decide) (fun i => Nat.zero_le 1)


end Chip8Spec
